import Mathlib

/-!
Verification of the thumbnailer package (jordanfitz/thumbnailer).

The Go source in thumbnailer.go is embedded shallowly:

* float64 arithmetic in scaleDimensions is modelled by exact rational
  arithmetic over ℚ (for the magnitudes of image dimensions the two agree);
* Go machine integers are modelled by ℤ;
* the byte slice holding the source image is modelled by a list of bytes,
  and image.Decode from the Go standard library is abstracted as a
  parameter of Create, a function from those bytes to an optional decode
  result;
* Go slices of options, whose append semantics (in-place write into spare
  capacity versus reallocation) are observable through the builder API,
  are modelled by an explicit heap of backing arrays plus slice headers;
* the pixel work of the scaler and of the encoders is external to the
  package; encoding is modelled by a descriptor recording exactly the
  request made to the encoder, together with the size checks that
  image/jpeg and image/png perform on that request.
-/

/-- Rounding as Go math.Round: round half away from zero.  On a
nonnegative argument this is the floor of the argument plus one half, on a
negative argument the ceiling of the argument minus one half. -/
def goRound (q : ℚ) : ℤ :=
  if 0 ≤ q then ⌊q + 1 / 2⌋ else ⌈q - 1 / 2⌉

/-- Embedding of scaleDimensions (thumbnailer.go lines 167-187), with
float64 arithmetic modelled exactly over ℚ. -/
def scaleDimensions (maxSize width height : ℤ) : ℤ × ℤ :=
  let hRatio : ℚ := if width > maxSize then (maxSize : ℚ) / (width : ℚ) else 1
  let vRatio : ℚ := if height > maxSize then (maxSize : ℚ) / (height : ℚ) else 1
  let scale : ℚ := min hRatio vRatio
  if scale = 1 then (width, height)
  else (goRound ((width : ℚ) * scale), goRound ((height : ℚ) * scale))

/-- Round-half-away-from-zero integer rounding exactly as the spec words
it: the magnitude is rounded by adding one half and taking the floor, and
the sign is reapplied. -/
def roundHalfAwayFromZero (q : ℚ) : ℤ :=
  if q < 0 then -⌊-q + 1 / 2⌋ else ⌊q + 1 / 2⌋

/-- The dimension scaler as section 4.1 of the spec words it: hRatio is
maxSize divided by width when width exceeds maxSize and one otherwise,
vRatio symmetrically for the height, scale is the minimum of the two; when
scale is one the original dimensions are returned unchanged, otherwise
each dimension is multiplied by scale and rounded half away from zero. -/
def scaleDimensionsSpec (maxSize width height : ℤ) : ℤ × ℤ :=
  let hRatio : ℚ := if width > maxSize then (maxSize : ℚ) / (width : ℚ) else 1
  let vRatio : ℚ := if height > maxSize then (maxSize : ℚ) / (height : ℚ) else 1
  let scale : ℚ := min hRatio vRatio
  if scale = 1 then (width, height)
  else (roundHalfAwayFromZero ((width : ℚ) * scale),
        roundHalfAwayFromZero ((height : ℚ) * scale))

/-- The OutputFormat enumeration (lines 16-22): OriginalFormat, JPG, PNG,
with uint8 values 0, 1, 2; values above PNG never reach a Thumbnailer
because OutFormat clamps them (lines 62-65) and the field is unexported. -/
inductive OutputFormat
  | OriginalFormat
  | JPG
  | PNG
deriving DecidableEq

/-- Numeric uint8 value of an OutputFormat constant. -/
def OutputFormat.toNat : OutputFormat → ℕ
  | .OriginalFormat => 0
  | .JPG => 1
  | .PNG => 2

/-- The OutputFormat constant denoted by a uint8 value at most 2. -/
def OutputFormat.fromNat (v : ℕ) : OutputFormat :=
  if v = 1 then .JPG else if v = 2 then .PNG else .OriginalFormat

/-- The format tag image.Decode reports for a JPEG image (line 25). -/
def formatJPG : String := "jpeg"

/-- The format tag image.Decode reports for a PNG image (line 26). -/
def formatPNG : String := "png"

/-- DefaultMaxSize (line 27). -/
def DefaultMaxSize : ℤ := 300

/-- jpeg.DefaultQuality from the Go standard library, the default used by
New (line 95). -/
def jpegDefaultQuality : ℤ := 75

/-- The scalers selectable through the Scaler option (the fixed set the
command line exposes); their pixel arithmetic is external to the package. -/
inductive ScalerKind
  | approxBiLinear
  | nearestNeighbor
  | biLinear
  | catmullRom
deriving DecidableEq

/-- A value of the Go type Option (line 34).  Each exported option
constructor produces a closure that writes one configuration field of the
Thumbnailer it is applied to; the closure is modelled by the written field
and value. -/
inductive OptionV
  | image (value : List ℕ)
  | maxSize (value : ℤ)
  | quality (value : ℤ)
  | outFormat (value : OutputFormat)
  | scaler (value : ScalerKind)
deriving DecidableEq

/-- Embedding of Image (lines 37-43): the byte slice is copied into the
option; on immutable lists the copy is the list itself. -/
def Image (value : List ℕ) : OptionV :=
  OptionV.image value

/-- Embedding of MaxSize (lines 46-50). -/
def MaxSize (value : ℤ) : OptionV :=
  OptionV.maxSize value

/-- Embedding of Quality (lines 54-58). -/
def Quality (value : ℤ) : OptionV :=
  OptionV.quality value

/-- Embedding of OutFormat (lines 62-69).  The argument is the numeric
uint8 value of the requested OutputFormat; a value above PNG is replaced
by OriginalFormat before the option is created. -/
def OutFormat (value : ℕ) : OptionV :=
  OptionV.outFormat (if 2 < value then OutputFormat.OriginalFormat else OutputFormat.fromNat value)

/-- Embedding of Scaler (lines 73-77). -/
def Scaler (value : ScalerKind) : OptionV :=
  OptionV.scaler value

/-! ### Go slices of options

The builder stores its options in a Go slice.  Which builder sees which
option after an append depends on Go slice semantics: append writes in
place when the backing array has spare capacity and reallocates a doubled
copy otherwise.  A backing array is modelled as a list whose length is the
capacity of the array; a heap collects all backing arrays; a slice header
is an index into the heap plus a length.  Every slice this program builds
starts at offset 0 of its array, so no offset field is needed. -/

/-- The heap of backing arrays allocated for option slices. -/
structure Heap where
  arrays : List (List OptionV)
deriving DecidableEq

/-- A Go slice header over a heap: backing array index and length.  The
capacity of the slice is the length of its backing array. -/
structure GoSlice where
  id : ℕ
  len : ℕ
deriving DecidableEq

/-- The backing array of index i, the empty array for a dangling index. -/
def Heap.get (h : Heap) (i : ℕ) : List OptionV :=
  h.arrays.getD i []

/-- The elements a slice sees: the first len entries of its backing
array. -/
def view (h : Heap) (s : GoSlice) : List OptionV :=
  (h.get s.id).take s.len

/-- Filler value for capacity slots that have not been written yet; such
slots are never read through any slice view. -/
def fillerOption : OptionV :=
  OptionV.maxSize 0

/-- Capacity chosen by Go append when it must grow a small backing array
of capacity c to hold need elements: the doubled capacity, at least 1 and
at least the needed length. -/
def growCap (c need : ℕ) : ℕ :=
  max (max (2 * c) 1) need

/-- Go append of one element to a slice: when the backing array has spare
capacity the element is written in place, into storage possibly shared
with other slices, and only the returned header grows; otherwise the live
elements are copied into a freshly allocated larger array. -/
def goAppend (h : Heap) (s : GoSlice) (o : OptionV) : Heap × GoSlice :=
  let arr := h.get s.id
  if s.len < arr.length then
    (⟨h.arrays.set s.id (arr.set s.len o)⟩, ⟨s.id, s.len + 1⟩)
  else
    let newArr := arr.take s.len ++ o ::
      List.replicate (growCap arr.length (s.len + 1) - (s.len + 1)) fillerOption
    (⟨h.arrays ++ [newArr]⟩, ⟨h.arrays.length, s.len + 1⟩)

/-- A slice header that points into the heap and within its backing
array. -/
def GoSlice.WF (h : Heap) (s : GoSlice) : Prop :=
  s.id < h.arrays.length ∧ s.len ≤ (h.get s.id).length

/-- Embedding of the Thumbnailer struct (lines 79-86). -/
structure Thumbnailer where
  scaler : ScalerKind
  img : List ℕ
  options : GoSlice
  maxSize : ℤ
  jpgQuality : ℤ
  outFormat : OutputFormat
deriving DecidableEq

/-- Embedding of New (lines 89-98).  The variadic options arrive as a
fresh slice whose capacity equals its length. -/
def New (h : Heap) (options : List OptionV) : Heap × Thumbnailer :=
  (⟨h.arrays ++ [options]⟩,
   { scaler := ScalerKind.approxBiLinear
     img := []
     options := ⟨h.arrays.length, options.length⟩
     maxSize := DefaultMaxSize
     jpgQuality := jpegDefaultQuality
     outFormat := OutputFormat.OriginalFormat })

/-- Embedding of With (lines 101-104): the receiver is a value copy, the
option is appended to its options slice. -/
def Thumbnailer.With (h : Heap) (t : Thumbnailer) (o : OptionV) : Heap × Thumbnailer :=
  let hs := goAppend h t.options o
  (hs.1, { t with options := hs.2 })

/-- Running one stored option closure on the working copy of the
Thumbnailer (the loop body of line 137; the closure bodies are in lines
37-77). -/
def applyOption (t : Thumbnailer) (o : OptionV) : Thumbnailer :=
  match o with
  | .image v => { t with img := v }
  | .maxSize v => { t with maxSize := v }
  | .quality v => { t with jpgQuality := v }
  | .outFormat v => { t with outFormat := v }
  | .scaler v => { t with scaler := v }

/-- Result of image.Decode from the Go standard library: the detected
format tag and the Bounds().Max coordinates of the decoded image, which
for every registered decoder are the pixel width and height (decoded
images have Min = (0,0)). -/
structure Decoded where
  format : String
  width : ℤ
  height : ℤ
deriving DecidableEq

/-- image.Decode abstracted: a function from the source byte slice to the
decode result, none meaning a decode error. -/
def Decoder : Type :=
  List ℕ → Option Decoded

/-- The errors Create can return (lines 140-164 and 106-132). -/
inductive CreateError
  | decodeFailed
  | invalidImageFormat (format : String)
  | unexpectedOutputFormat
  | encodeFailed (msg : String)
deriving DecidableEq

/-- Observable description of an encode result: the exact request the
package hands to the standard library encoder.  The byte stream itself is
produced outside the package. -/
inductive Encoded
  | jpgData (width height quality : ℤ)
  | pngData (width height : ℤ)
deriving DecidableEq

/-- The format an encode result was encoded in. -/
def Encoded.format : Encoded → OutputFormat
  | .jpgData _ _ _ => OutputFormat.JPG
  | .pngData _ _ => OutputFormat.PNG

/-- Pixel width of an encode result. -/
def Encoded.width : Encoded → ℤ
  | .jpgData w _ _ => w
  | .pngData w _ => w

/-- Pixel height of an encode result. -/
def Encoded.height : Encoded → ℤ
  | .jpgData _ h _ => h
  | .pngData _ h => h

/-- Embedding of encodeJPG (lines 106-114).  jpeg.Encode is external; on
the images this package builds its only failure is the size check of
image/jpeg, which rejects a width or height of 65536 or more; a
zero-sized image is encoded without error. -/
def Thumbnailer.encodeJPG (t : Thumbnailer) (width height : ℤ) : Except CreateError Encoded :=
  if 65536 ≤ width ∨ 65536 ≤ height then
    Except.error (CreateError.encodeFailed "jpeg: image is too large to encode")
  else
    Except.ok (Encoded.jpgData width height t.jpgQuality)

/-- Embedding of encodePNG (lines 116-122).  png.Encode is external; on
the images this package builds its only failure is the size check of
image/png, which rejects a width or height that is not positive or is at
least 2^32. -/
def Thumbnailer.encodePNG (_t : Thumbnailer) (width height : ℤ) : Except CreateError Encoded :=
  if width ≤ 0 ∨ height ≤ 0 ∨ 2 ^ 32 ≤ width ∨ 2 ^ 32 ≤ height then
    Except.error (CreateError.encodeFailed "png: invalid image size")
  else
    Except.ok (Encoded.pngData width height)

/-- Embedding of encode (lines 124-132).  The switch has cases for JPG and
PNG; every other value of the field falls through to the unexpected
output format error. -/
def Thumbnailer.encode (t : Thumbnailer) (width height : ℤ) : Except CreateError Encoded :=
  match t.outFormat with
  | OutputFormat.JPG => t.encodeJPG width height
  | OutputFormat.PNG => t.encodePNG width height
  | OutputFormat.OriginalFormat => Except.error CreateError.unexpectedOutputFormat

/-- The body of Create after the option loop (lines 140-164), taking the
working copy with all deferred options already applied: decode, resolve
the output format, scale the dimensions, and encode. -/
def createBody (decode : Decoder) (t : Thumbnailer) : Except CreateError Encoded :=
  match decode t.img with
  | none => Except.error CreateError.decodeFailed
  | some d =>
    let resolved : Except CreateError Thumbnailer :=
      if t.outFormat = OutputFormat.OriginalFormat then
        if d.format = formatJPG then Except.ok { t with outFormat := OutputFormat.JPG }
        else if d.format = formatPNG then Except.ok { t with outFormat := OutputFormat.PNG }
        else Except.error (CreateError.invalidImageFormat d.format)
      else Except.ok t
    match resolved with
    | Except.error e => Except.error e
    | Except.ok t2 =>
      let dims := scaleDimensions t2.maxSize d.width d.height
      t2.encode dims.1 dims.2

/-- Create run on an explicit list of deferred options: the loop of lines
136-138 applied to the working copy, then the body. -/
def createOnOptions (decode : Decoder) (t : Thumbnailer) (opts : List OptionV) :
    Except CreateError Encoded :=
  createBody decode (opts.foldl applyOption t)

/-- Embedding of Create (lines 135-165).  The receiver is a value copy, so
the caller observes no mutation; the deferred options the builder sees
through its slice are applied to that working copy in order, then the
body runs. -/
def Thumbnailer.Create (decode : Decoder) (h : Heap) (t : Thumbnailer) :
    Except CreateError Encoded :=
  createOnOptions decode t (view h t.options)

/-- The effective configuration of a Create call: the working copy after
the option loop (lines 136-138). -/
def effective (h : Heap) (t : Thumbnailer) : Thumbnailer :=
  (view h t.options).foldl applyOption t

/-- The scale variable of scaleDimensions (lines 168-178): the minimum of
the two shrink ratios. -/
def scaleFactor (maxSize width height : ℤ) : ℚ :=
  min (if width > maxSize then (maxSize : ℚ) / (width : ℚ) else 1)
      (if height > maxSize then (maxSize : ℚ) / (height : ℚ) else 1)

/-- The empty heap a program starts from. -/
def heap0 : Heap :=
  ⟨[]⟩

/-- A decoder that reports a fixed format and fixed bounds for any input,
standing for image.Decode on one concrete well-formed image. -/
def constDecoder (format : String) (w h : ℤ) : Decoder :=
  fun _ => some ⟨format, w, h⟩

/-- A builder made by New() with no arguments, together with its heap. -/
def newBuilder : Heap × Thumbnailer :=
  New heap0 []

/-- A builder holding three options, made from New() by three With calls;
after the third append its options slice has length 3 but capacity 4,
leaving one spare capacity slot. -/
def builder3 : Heap × Thumbnailer :=
  let s0 := New heap0 []
  let s1 := Thumbnailer.With s0.1 s0.2 (MaxSize 10)
  let s2 := Thumbnailer.With s1.1 s1.2 (MaxSize 20)
  Thumbnailer.With s2.1 s2.2 (MaxSize 30)

/-- First sibling of builder3: appends MaxSize 100 into the spare slot. -/
def sibling1 : Heap × Thumbnailer :=
  Thumbnailer.With builder3.1 builder3.2 (MaxSize 100)

/-- Second sibling of builder3, created after sibling1: appends
MaxSize 200 into the same spare slot of the shared backing array. -/
def sibling2 : Heap × Thumbnailer :=
  Thumbnailer.With sibling1.1 builder3.2 (MaxSize 200)

/-! ### Rounding lemmas -/

/-- goRound is exactly the round-half-away-from-zero rounding named by the
spec. -/
theorem goRound_eq_roundHalfAwayFromZero (q : ℚ) :
    goRound q = roundHalfAwayFromZero q := by
  unfold goRound roundHalfAwayFromZero
  rcases lt_or_le q 0 with hq | hq
  · rw [if_neg (not_le.2 hq), if_pos hq]
    rw [show -q + 1 / 2 = -(q - 1 / 2) by ring, Int.floor_neg, neg_neg]
  · rw [if_pos hq, if_neg (not_lt.2 hq)]

/-- Rounding a nonnegative value that is at most the integer n gives at
most n. -/
theorem goRound_le_intCast {q : ℚ} {n : ℤ} (h0 : 0 ≤ q) (h : q ≤ (n : ℚ)) :
    goRound q ≤ n := by
  rw [goRound, if_pos h0]
  have h2 : q + 1 / 2 ≤ (n : ℚ) + 1 / 2 := by linarith
  calc ⌊q + 1 / 2⌋ ≤ ⌊(n : ℚ) + 1 / 2⌋ := Int.floor_le_floor h2
    _ = n := by
        rw [add_comm, Int.floor_add_int]
        norm_num
  
/-- Rounding moves a nonnegative value by at most one half. -/
theorem abs_goRound_sub_le {q : ℚ} (h0 : 0 ≤ q) : |(goRound q : ℚ) - q| ≤ 1 / 2 := by
  rw [goRound, if_pos h0]
  have h1 : ((⌊q + 1 / 2⌋ : ℤ) : ℚ) ≤ q + 1 / 2 := Int.floor_le _
  have h2 : q + 1 / 2 - 1 < ((⌊q + 1 / 2⌋ : ℤ) : ℚ) := Int.sub_one_lt_floor _
  rw [abs_le]
  constructor <;> linarith

/-! ### scaleDimensions branch lemmas -/

/-- scaleDimensions written through scaleFactor. -/
theorem scaleDimensions_eq (m w h : ℤ) :
    scaleDimensions m w h =
      if scaleFactor m w h = 1 then (w, h)
      else (goRound ((w : ℚ) * scaleFactor m w h), goRound ((h : ℚ) * scaleFactor m w h)) :=
  rfl

/-- When both dimensions already fit, both ratios are one and the input is
returned unchanged. -/
theorem scaleDimensions_of_fits {m w h : ℤ} (hw : w ≤ m) (hh : h ≤ m) :
    scaleDimensions m w h = (w, h) := by
  rw [scaleDimensions_eq, if_pos]
  unfold scaleFactor
  rw [if_neg (not_lt.2 hw), if_neg (not_lt.2 hh), min_self]

/-- The scale factor is positive on valid inputs. -/
theorem scaleFactor_pos {m w h : ℤ} (hm : 1 ≤ m) (hw : 0 < w) (hh : 0 < h) :
    0 < scaleFactor m w h := by
  have hm' : (0 : ℚ) < (m : ℚ) := by exact_mod_cast lt_of_lt_of_le Int.one_pos hm
  have hw' : (0 : ℚ) < (w : ℚ) := by exact_mod_cast hw
  have hh' : (0 : ℚ) < (h : ℚ) := by exact_mod_cast hh
  refine lt_min ?_ ?_ <;> split_ifs <;> first
    | exact div_pos hm' hw'
    | exact div_pos hm' hh'
    | exact one_pos

/-- The scale factor never exceeds one. -/
theorem scaleFactor_le_one {m w h : ℤ} (hw : 0 < w) :
    scaleFactor m w h ≤ 1 := by
  refine le_trans (min_le_left _ _) ?_
  split_ifs with hcmp
  · have hw' : (0 : ℚ) < (w : ℚ) := by exact_mod_cast hw
    rw [div_le_one hw']
    exact_mod_cast le_of_lt hcmp
  · exact le_rfl

/-- When a dimension exceeds the bound the scale factor is strictly below
one. -/
theorem scaleFactor_lt_one {m w h : ℤ} (hw : 0 < w) (hh : 0 < h)
    (hbig : m < w ∨ m < h) : scaleFactor m w h < 1 := by
  rcases hbig with hb | hb
  · refine lt_of_le_of_lt (min_le_left _ _) ?_
    rw [if_pos hb]
    have hw' : (0 : ℚ) < (w : ℚ) := by exact_mod_cast hw
    rw [div_lt_one hw']
    exact_mod_cast hb
  · refine lt_of_le_of_lt (min_le_right _ _) ?_
    rw [if_pos hb]
    have hh' : (0 : ℚ) < (h : ℚ) := by exact_mod_cast hh
    rw [div_lt_one hh']
    exact_mod_cast hb

/-- The scaled width is at most the bound. -/
theorem width_mul_scaleFactor_le {m w h : ℤ} (hw : 0 < w) :
    (w : ℚ) * scaleFactor m w h ≤ (m : ℚ) := by
  have hw' : (0 : ℚ) < (w : ℚ) := by exact_mod_cast hw
  by_cases hcmp : w > m
  · have hle : scaleFactor m w h ≤ (m : ℚ) / (w : ℚ) := by
      refine le_trans (min_le_left _ _) ?_
      rw [if_pos hcmp]
    calc (w : ℚ) * scaleFactor m w h ≤ (w : ℚ) * ((m : ℚ) / (w : ℚ)) :=
          mul_le_mul_of_nonneg_left hle (le_of_lt hw')
      _ = (m : ℚ) := mul_div_cancel₀ _ (ne_of_gt hw')
  · have hle : scaleFactor m w h ≤ 1 := scaleFactor_le_one hw
    have hwm : (w : ℚ) ≤ (m : ℚ) := by exact_mod_cast not_lt.1 hcmp
    calc (w : ℚ) * scaleFactor m w h ≤ (w : ℚ) * 1 :=
          mul_le_mul_of_nonneg_left hle (le_of_lt hw')
      _ = (w : ℚ) := mul_one _
      _ ≤ (m : ℚ) := hwm

/-- The scale factor is symmetric in the two dimensions. -/
theorem scaleFactor_comm (m w h : ℤ) : scaleFactor m w h = scaleFactor m h w := by
  unfold scaleFactor
  exact min_comm _ _

/-- The scaled height is at most the bound. -/
theorem height_mul_scaleFactor_le {m w h : ℤ} (hh : 0 < h) :
    (h : ℚ) * scaleFactor m w h ≤ (m : ℚ) := by
  rw [scaleFactor_comm]
  exact width_mul_scaleFactor_le hh

/-- Both computed dimensions are bounded by maxSize. -/
theorem scaleDimensions_le {m w h : ℤ} (hm : 1 ≤ m) (hw : 0 < w) (hh : 0 < h) :
    (scaleDimensions m w h).1 ≤ m ∧ (scaleDimensions m w h).2 ≤ m := by
  by_cases hfits : w ≤ m ∧ h ≤ m
  · rw [scaleDimensions_of_fits hfits.1 hfits.2]
    exact hfits
  · have hbig : m < w ∨ m < h := by
      rcases not_and_or.1 hfits with h1 | h1
      · exact Or.inl (not_le.1 h1)
      · exact Or.inr (not_le.1 h1)
    have hne : scaleFactor m w h ≠ 1 := ne_of_lt (scaleFactor_lt_one hw hh hbig)
    rw [scaleDimensions_eq, if_neg hne]
    have hsf := scaleFactor_pos hm hw hh
    have hwq : (0 : ℚ) ≤ (w : ℚ) := by exact_mod_cast le_of_lt hw
    have hhq : (0 : ℚ) ≤ (h : ℚ) := by exact_mod_cast le_of_lt hh
    constructor
    · exact goRound_le_intCast (mul_nonneg hwq (le_of_lt hsf)) (width_mul_scaleFactor_le hw)
    · exact goRound_le_intCast (mul_nonneg hhq (le_of_lt hsf)) (height_mul_scaleFactor_le hh)

/-- C1: for every maxSize at least 1 and positive width and height,
scaleDimensions computes hRatio as maxSize over width when width exceeds
maxSize and one otherwise, vRatio symmetrically, takes scale as their
minimum, returns the input unchanged when scale is one, and otherwise
returns both dimensions multiplied by scale and rounded half away from
zero: it coincides with the algorithm as the spec states it. -/
theorem scaleDimensions_matches_spec (m w h : ℤ) (_hm : 1 ≤ m) (_hw : 0 < w)
    (_hh : 0 < h) : scaleDimensions m w h = scaleDimensionsSpec m w h := by
  unfold scaleDimensions scaleDimensionsSpec
  simp only [goRound_eq_roundHalfAwayFromZero]

/-- C1 witness: the theorem instantiated on a concrete input. -/
theorem scaleDimensions_matches_spec_witness :
    scaleDimensions 300 1000 500 = scaleDimensionsSpec 300 1000 500 :=
  scaleDimensions_matches_spec 300 1000 500 (by norm_num) (by norm_num) (by norm_num)

/-- C4: an image whose dimensions already fit within maxSize is returned
with its original dimensions, no rounding applied. -/
theorem scaleDimensions_noop (m w h : ℤ) (_hw : 0 < w) (_hh : 0 < h)
    (hwm : w ≤ m) (hhm : h ≤ m) : scaleDimensions m w h = (w, h) :=
  scaleDimensions_of_fits hwm hhm

/-- C4 witness: the theorem instantiated on a concrete input. -/
theorem scaleDimensions_noop_witness : scaleDimensions 300 200 100 = (200, 100) :=
  scaleDimensions_noop 300 200 100 (by norm_num) (by norm_num) (by norm_num) (by norm_num)

/-- C3 counterexample: maxSize 1 with a 2 by 3 image satisfies every
precondition, yet the returned dimensions are (1, 1) and the aspect ratio
moves from 2/3 to 1, a difference of 1/3, far above 1/1000. -/
theorem aspectRatio_claim_fails_small :
    (1 : ℤ) ≤ 1 ∧ (0 : ℤ) < 2 ∧ (0 : ℤ) < 3 ∧
    scaleDimensions 1 2 3 = (1, 1) ∧
    ¬ |(2 : ℚ) / 3 - ((scaleDimensions 1 2 3).1 : ℚ) / ((scaleDimensions 1 2 3).2 : ℚ)| ≤
      1 / 1000 := by
  have heval : scaleDimensions 1 2 3 = (1, 1) := by
    unfold scaleDimensions goRound
    norm_num [Int.floor_eq_iff]
  refine ⟨le_rfl, by norm_num, by norm_num, heval, ?_⟩
  rw [heval]
  have habs : |(2 : ℚ) / 3 - ((1 : ℤ) : ℚ) / ((1 : ℤ) : ℚ)| = 1 / 3 := by
    rw [show (2 : ℚ) / 3 - ((1 : ℤ) : ℚ) / ((1 : ℤ) : ℚ) = -(1 / 3) by norm_num, abs_neg,
      abs_of_nonneg (by norm_num)]
  rw [habs]
  norm_num

/-- C3 amended: independent rounding of the two scaled dimensions moves
each by at most one half, so the aspect ratio error is bounded by
(width + height) divided by twice height times newHeight; whenever
500 * (width + height) is at most height * newHeight (as is the case for
typical image sizes, where the output dimensions are large), the
difference in aspect ratios is at most 1/1000.  For tiny outputs the
1/1000 bound can fail. -/
theorem aspectRatio_bound (m w h : ℤ) (hm : 1 ≤ m) (hw : 0 < w) (hh : 0 < h)
    (hbig : 500 * (w + h) ≤ h * (scaleDimensions m w h).2) :
    |(w : ℚ) / (h : ℚ) - ((scaleDimensions m w h).1 : ℚ) / ((scaleDimensions m w h).2 : ℚ)| ≤
      1 / 1000 := by
  have hwq : (0 : ℚ) < (w : ℚ) := by exact_mod_cast hw
  have hhq : (0 : ℚ) < (h : ℚ) := by exact_mod_cast hh
  by_cases hfits : w ≤ m ∧ h ≤ m
  · rw [scaleDimensions_of_fits hfits.1 hfits.2]
    simp only [sub_self, abs_zero]
    norm_num
  · have hbig2 : m < w ∨ m < h := by
      rcases not_and_or.1 hfits with h1 | h1
      · exact Or.inl (not_le.1 h1)
      · exact Or.inr (not_le.1 h1)
    have hne : scaleFactor m w h ≠ 1 := ne_of_lt (scaleFactor_lt_one hw hh hbig2)
    have hsp := scaleFactor_pos hm hw hh
    have heval : scaleDimensions m w h =
        (goRound ((w : ℚ) * scaleFactor m w h), goRound ((h : ℚ) * scaleFactor m w h)) := by
      rw [scaleDimensions_eq, if_neg hne]
    rw [heval] at hbig ⊢
    dsimp only at hbig ⊢
    set s : ℚ := scaleFactor m w h with hs
    set nW : ℤ := goRound ((w : ℚ) * s) with hnW
    set nH : ℤ := goRound ((h : ℚ) * s) with hnH
    have hnH_pos : 0 < nH := by
      by_contra h0
      have hle : h * nH ≤ 0 := mul_nonpos_iff.2 (Or.inl ⟨le_of_lt hh, not_lt.1 h0⟩)
      nlinarith
    have hnHq : (0 : ℚ) < (nH : ℚ) := by exact_mod_cast hnH_pos
    have habs1 : |((nW : ℚ)) - (w : ℚ) * s| ≤ 1 / 2 :=
      abs_goRound_sub_le (mul_nonneg (le_of_lt hwq) (le_of_lt hsp))
    have habs2 : |((nH : ℚ)) - (h : ℚ) * s| ≤ 1 / 2 :=
      abs_goRound_sub_le (mul_nonneg (le_of_lt hhq) (le_of_lt hsp))
    have hnum : |(w : ℚ) * (nH : ℚ) - (h : ℚ) * (nW : ℚ)| ≤ ((w : ℚ) + (h : ℚ)) / 2 := by
      have hsplit : (w : ℚ) * (nH : ℚ) - (h : ℚ) * (nW : ℚ) =
          (w : ℚ) * ((nH : ℚ) - (h : ℚ) * s) - (h : ℚ) * ((nW : ℚ) - (w : ℚ) * s) := by
        ring
      rw [hsplit]
      calc |(w : ℚ) * ((nH : ℚ) - (h : ℚ) * s) - (h : ℚ) * ((nW : ℚ) - (w : ℚ) * s)|
          ≤ |(w : ℚ) * ((nH : ℚ) - (h : ℚ) * s)| + |(h : ℚ) * ((nW : ℚ) - (w : ℚ) * s)| :=
            abs_sub _ _
        _ = (w : ℚ) * |(nH : ℚ) - (h : ℚ) * s| + (h : ℚ) * |(nW : ℚ) - (w : ℚ) * s| := by
            rw [abs_mul, abs_mul, abs_of_pos hwq, abs_of_pos hhq]
        _ ≤ (w : ℚ) * (1 / 2) + (h : ℚ) * (1 / 2) := by
            have t1 := mul_le_mul_of_nonneg_left habs2 (le_of_lt hwq)
            have t2 := mul_le_mul_of_nonneg_left habs1 (le_of_lt hhq)
            linarith
        _ = ((w : ℚ) + (h : ℚ)) / 2 := by ring
    have hkey : |(w : ℚ) / (h : ℚ) - (nW : ℚ) / (nH : ℚ)| =
        |(w : ℚ) * (nH : ℚ) - (h : ℚ) * (nW : ℚ)| / ((h : ℚ) * (nH : ℚ)) := by
      rw [div_sub_div _ _ (ne_of_gt hhq) (ne_of_gt hnHq), abs_div,
        abs_of_pos (mul_pos hhq hnHq)]
    rw [hkey]
    have hbigq : (500 : ℚ) * ((w : ℚ) + (h : ℚ)) ≤ (h : ℚ) * (nH : ℚ) := by
      exact_mod_cast hbig
    rw [div_le_div_iff₀ (mul_pos hhq hnHq) (by norm_num : (0 : ℚ) < 1000)]
    calc |(w : ℚ) * (nH : ℚ) - (h : ℚ) * (nW : ℚ)| * 1000
        ≤ (((w : ℚ) + (h : ℚ)) / 2) * 1000 := by
          have := mul_le_mul_of_nonneg_right hnum (by norm_num : (0 : ℚ) ≤ 1000)
          linarith
      _ = 500 * ((w : ℚ) + (h : ℚ)) := by ring
      _ ≤ (h : ℚ) * (nH : ℚ) := hbigq
      _ = 1 * ((h : ℚ) * (nH : ℚ)) := (one_mul _).symm

/-- C3 amended witness: a 3000 by 3000 image bound to 2000 satisfies the
largeness condition and keeps the aspect ratio exactly. -/
theorem aspectRatio_bound_witness :
    |(3000 : ℚ) / (3000 : ℚ) -
        ((scaleDimensions 2000 3000 3000).1 : ℚ) / ((scaleDimensions 2000 3000 3000).2 : ℚ)| ≤
      1 / 1000 :=
  aspectRatio_bound 2000 3000 3000 (by norm_num) (by norm_num) (by norm_num)
    (by unfold scaleDimensions goRound; norm_num [Int.floor_eq_iff])

/-- C10: the documented preconditions admit inputs where one scaled
dimension rounds to zero: a 1000 by 1 image bounded to 300 scales to
(300, 0); a Create call on such a PNG builds an empty target rectangle
and ends with an encoder error instead of a thumbnail. -/
theorem elongated_image_scales_to_zero :
    scaleDimensions 300 1000 1 = (300, 0) ∧
    Thumbnailer.Create (constDecoder formatPNG 1000 1) newBuilder.1 newBuilder.2 =
      Except.error (CreateError.encodeFailed "png: invalid image size") := by
  have heval : scaleDimensions 300 1000 1 = (300, 0) := by
    unfold scaleDimensions goRound
    norm_num [Int.floor_eq_iff]
  refine ⟨heval, ?_⟩
  have hview : view newBuilder.1 newBuilder.2.options = [] := by decide
  unfold Thumbnailer.Create createOnOptions
  rw [hview]
  unfold createBody constDecoder
  simp only [List.foldl_nil, newBuilder, New, heap0, formatJPG, formatPNG, DefaultMaxSize]
  simp +decide [heval, Thumbnailer.encode, Thumbnailer.encodePNG]

/-! ### List and heap lemmas for the slice model -/

/-- Writing at or past the taken prefix leaves the prefix unchanged. -/
theorem list_take_set_of_le {α : Type} (l : List α) (n m : ℕ) (a : α) (hmn : m ≤ n) :
    (l.set n a).take m = l.take m := by
  induction l generalizing n m with
  | nil => simp
  | cons x xs ih =>
    cases n with
    | zero =>
      have hm : m = 0 := Nat.le_zero.1 hmn
      simp [hm]
    | succ n' =>
      cases m with
      | zero => simp
      | succ m' =>
        rw [List.set_cons_succ, List.take_succ_cons, List.take_succ_cons,
          ih n' m' (Nat.succ_le_succ_iff.1 hmn)]

/-- Writing just past the taken prefix and taking one more element appends
the written element. -/
theorem list_take_succ_set {α : Type} (l : List α) (n : ℕ) (a : α) (h : n < l.length) :
    (l.set n a).take (n + 1) = l.take n ++ [a] := by
  induction l generalizing n with
  | nil => simp at h
  | cons x xs ih =>
    cases n with
    | zero => simp
    | succ n' =>
      rw [List.set_cons_succ, List.take_succ_cons, List.take_succ_cons,
        ih n' (by simpa using h)]
      simp

/-- Reading a replaced backing array. -/
theorem heap_get_set_self (hp : Heap) (i : ℕ) (arr : List OptionV)
    (h : i < hp.arrays.length) : Heap.get ⟨hp.arrays.set i arr⟩ i = arr := by
  unfold Heap.get
  rw [List.getD_eq_getElem?_getD, List.getElem?_set_self (by simpa using h)]
  rfl

/-- Replacing one backing array leaves the others unchanged. -/
theorem heap_get_set_ne (hp : Heap) (i j : ℕ) (arr : List OptionV) (hne : i ≠ j) :
    Heap.get ⟨hp.arrays.set i arr⟩ j = Heap.get hp j := by
  unfold Heap.get
  rw [List.getD_eq_getElem?_getD, List.getD_eq_getElem?_getD, List.getElem?_set_ne hne]

/-- Allocating a fresh backing array leaves existing indices unchanged. -/
theorem heap_get_append_lt (hp : Heap) (arr : List OptionV) (i : ℕ)
    (h : i < hp.arrays.length) : Heap.get ⟨hp.arrays ++ [arr]⟩ i = Heap.get hp i := by
  unfold Heap.get
  rw [List.getD_eq_getElem?_getD, List.getD_eq_getElem?_getD, List.getElem?_append, if_pos h]

/-- Reading the freshly allocated backing array. -/
theorem heap_get_append_self (hp : Heap) (arr : List OptionV) :
    Heap.get ⟨hp.arrays ++ [arr]⟩ hp.arrays.length = arr := by
  unfold Heap.get
  rw [List.getD_eq_getElem?_getD, List.getElem?_concat_length]
  rfl

/-- A dangling backing array index reads as the empty array. -/
theorem heap_get_out (hp : Heap) (i : ℕ) (h : hp.arrays.length ≤ i) :
    Heap.get hp i = [] := by
  unfold Heap.get
  rw [List.getD_eq_getElem?_getD, List.getElem?_eq_none (by simpa using h)]
  rfl

/-- goAppend in the spare-capacity branch. -/
theorem goAppend_write (hp : Heap) (s : GoSlice) (o : OptionV)
    (hlt : s.len < (hp.get s.id).length) :
    goAppend hp s o =
      (⟨hp.arrays.set s.id ((hp.get s.id).set s.len o)⟩, ⟨s.id, s.len + 1⟩) := by
  simp only [goAppend]
  rw [if_pos hlt]

/-- goAppend in the reallocation branch. -/
theorem goAppend_grow (hp : Heap) (s : GoSlice) (o : OptionV)
    (hge : ¬ s.len < (hp.get s.id).length) :
    goAppend hp s o =
      (⟨hp.arrays ++ [(hp.get s.id).take s.len ++ o ::
          List.replicate (growCap (hp.get s.id).length (s.len + 1) - (s.len + 1)) fillerOption]⟩,
        ⟨hp.arrays.length, s.len + 1⟩) := by
  simp only [goAppend]
  rw [if_neg hge]

/-- In the spare-capacity branch the backing array index is necessarily
live: a dangling slice reads the empty array, which has no spare room. -/
theorem goAppend_write_id_lt (hp : Heap) (s : GoSlice)
    (hlt : s.len < (hp.get s.id).length) : s.id < hp.arrays.length := by
  by_contra hcon
  rw [heap_get_out hp s.id (not_lt.1 hcon)] at hlt
  simp at hlt

/-- Appending through a slice does not change what that slice sees. -/
theorem view_goAppend_self (hp : Heap) (s : GoSlice) (o : OptionV)
    (hid : s.id < hp.arrays.length) :
    view (goAppend hp s o).1 s = view hp s := by
  by_cases hlt : s.len < (hp.get s.id).length
  · rw [goAppend_write hp s o hlt]
    unfold view
    dsimp only
    rw [heap_get_set_self hp s.id _ hid, list_take_set_of_le _ _ _ _ le_rfl]
  · rw [goAppend_grow hp s o hlt]
    unfold view
    dsimp only
    rw [heap_get_append_lt hp _ s.id hid]

/-- The slice returned by append sees the old elements followed by the
appended one. -/
theorem view_goAppend_new (hp : Heap) (s : GoSlice) (o : OptionV)
    (hlen : s.len ≤ (hp.get s.id).length) :
    view (goAppend hp s o).1 (goAppend hp s o).2 = view hp s ++ [o] := by
  by_cases hlt : s.len < (hp.get s.id).length
  · have hid := goAppend_write_id_lt hp s hlt
    rw [goAppend_write hp s o hlt]
    unfold view
    dsimp only
    rw [heap_get_set_self hp s.id _ hid, list_take_succ_set _ _ _ hlt]
  · rw [goAppend_grow hp s o hlt]
    unfold view
    dsimp only
    rw [heap_get_append_self]
    have hA : ((hp.get s.id).take s.len).length = s.len := by
      rw [List.length_take]
      exact min_eq_left hlen
    rw [show (hp.get s.id).take s.len ++ o ::
        List.replicate (growCap (hp.get s.id).length (s.len + 1) - (s.len + 1)) fillerOption
        = ((hp.get s.id).take s.len ++ [o]) ++
          List.replicate (growCap (hp.get s.id).length (s.len + 1) - (s.len + 1)) fillerOption
        by simp]
    rw [show s.len + 1 = ((hp.get s.id).take s.len ++ [o]).length by simp [hA]]
    rw [List.take_left]

/-- Appending never shrinks the heap. -/
theorem arrays_length_le_goAppend (hp : Heap) (s : GoSlice) (o : OptionV) :
    hp.arrays.length ≤ (goAppend hp s o).1.arrays.length := by
  by_cases hlt : s.len < (hp.get s.id).length
  · rw [goAppend_write hp s o hlt]
    simp
  · rw [goAppend_grow hp s o hlt]
    simp

/-- Appending preserves the capacity of every live backing array. -/
theorem length_get_goAppend (hp : Heap) (s : GoSlice) (o : OptionV) (i : ℕ)
    (hi : i < hp.arrays.length) :
    ((goAppend hp s o).1.get i).length = (hp.get i).length := by
  by_cases hlt : s.len < (hp.get s.id).length
  · rw [goAppend_write hp s o hlt]
    by_cases hij : s.id = i
    · subst hij
      rw [heap_get_set_self hp s.id _ (goAppend_write_id_lt hp s hlt), List.length_set]
    · rw [heap_get_set_ne hp s.id i _ hij]
  · rw [goAppend_grow hp s o hlt]
    rw [heap_get_append_lt hp _ i hi]

/-- The slice returned by append is itself well formed. -/
theorem wf_goAppend_new (hp : Heap) (s : GoSlice) (o : OptionV)
    (hlen : s.len ≤ (hp.get s.id).length) :
    GoSlice.WF (goAppend hp s o).1 (goAppend hp s o).2 := by
  by_cases hlt : s.len < (hp.get s.id).length
  · have hid := goAppend_write_id_lt hp s hlt
    rw [goAppend_write hp s o hlt]
    constructor
    · simpa using hid
    · dsimp only
      rw [heap_get_set_self hp s.id _ hid, List.length_set]
      exact hlt
  · rw [goAppend_grow hp s o hlt]
    constructor
    · simp
    · dsimp only
      rw [heap_get_append_self]
      simp only [List.length_append, List.length_take, List.length_cons,
        List.length_replicate, min_eq_left hlen]
      omega

/-- With written through goAppend. -/
theorem with_eq (hp : Heap) (t : Thumbnailer) (o : OptionV) :
    Thumbnailer.With hp t o =
      ((goAppend hp t.options o).1, { t with options := (goAppend hp t.options o).2 }) :=
  rfl

/-- With leaves the calling builder's option view unchanged. -/
theorem view_with_self (hp : Heap) (t : Thumbnailer) (o : OptionV)
    (hid : t.options.id < hp.arrays.length) :
    view (Thumbnailer.With hp t o).1 t.options = view hp t.options := by
  rw [with_eq]
  exact view_goAppend_self hp t.options o hid

/-- The builder returned by With sees the old options followed by the new
one. -/
theorem view_with_new (hp : Heap) (t : Thumbnailer) (o : OptionV)
    (hlen : t.options.len ≤ (hp.get t.options.id).length) :
    view (Thumbnailer.With hp t o).1 ((Thumbnailer.With hp t o).2).options =
      view hp t.options ++ [o] := by
  rw [with_eq]
  exact view_goAppend_new hp t.options o hlen

/-! ### Create reads only the option view and the configuration fields -/

/-- An option closure never touches the options slice header, so applying
it commutes with replacing that header. -/
theorem applyOption_options (t : Thumbnailer) (x : GoSlice) (o : OptionV) :
    applyOption { t with options := x } o = { applyOption t o with options := x } := by
  cases o <;> rfl

/-- The option loop commutes with replacing the options slice header. -/
theorem foldl_applyOption_options (opts : List OptionV) (t : Thumbnailer) (x : GoSlice) :
    opts.foldl applyOption { t with options := x } =
      { opts.foldl applyOption t with options := x } := by
  induction opts generalizing t with
  | nil => rfl
  | cons o rest ih => rw [List.foldl_cons, List.foldl_cons, applyOption_options, ih]

/-- The body of Create never reads the options slice header. -/
theorem createBody_options (decode : Decoder) (t : Thumbnailer) (x : GoSlice) :
    createBody decode { t with options := x } = createBody decode t := by
  unfold createBody
  dsimp only
  cases hdec : decode t.img with
  | none => rfl
  | some d =>
    dsimp only
    by_cases h1 : t.outFormat = OutputFormat.OriginalFormat
    · rw [h1]
      by_cases h2 : d.format = formatJPG
      · simp [h2, Thumbnailer.encode, Thumbnailer.encodeJPG]
      · by_cases h3 : d.format = formatPNG
        · simp +decide [h2, h3, formatJPG, formatPNG, Thumbnailer.encode, Thumbnailer.encodePNG]
        · simp [h2, h3]
    · rw [if_neg h1, if_neg h1]
      dsimp only
      cases htf : t.outFormat with
      | OriginalFormat => exact absurd htf h1
      | JPG => simp [htf, Thumbnailer.encode, Thumbnailer.encodeJPG]
      | PNG => simp [htf, Thumbnailer.encode, Thumbnailer.encodePNG]

/-- Create on an explicit option list is independent of the builder's
options slice header. -/
theorem createOnOptions_options (decode : Decoder) (t : Thumbnailer) (x : GoSlice)
    (opts : List OptionV) :
    createOnOptions decode { t with options := x } opts = createOnOptions decode t opts := by
  unfold createOnOptions
  rw [foldl_applyOption_options, createBody_options]

/-- Create is the body applied to the effective configuration. -/
theorem create_eq_body (decode : Decoder) (hp : Heap) (t : Thumbnailer) :
    Thumbnailer.Create decode hp t = createBody decode (effective hp t) :=
  rfl

/-- Inverting a successful encode: the encoder was called with exactly the
dimensions recorded in the result, in the configured format. -/
theorem encode_ok_inv (t : Thumbnailer) (w h : ℤ) (out : Encoded)
    (hok : t.encode w h = Except.ok out) :
    out.width = w ∧ out.height = h ∧ out.format = t.outFormat := by
  cases htf : t.outFormat with
  | OriginalFormat =>
    simp only [Thumbnailer.encode, htf] at hok
    exact Except.noConfusion hok
  | JPG =>
    simp only [Thumbnailer.encode, htf, Thumbnailer.encodeJPG] at hok
    split_ifs at hok
    cases hok
    exact ⟨rfl, rfl, rfl⟩
  | PNG =>
    simp only [Thumbnailer.encode, htf, Thumbnailer.encodePNG] at hok
    split_ifs at hok
    cases hok
    exact ⟨rfl, rfl, rfl⟩

/-- Inverting a successful Create body: the result dimensions are the
scaled dimensions of the decoded image under the effective maxSize. -/
theorem createBody_ok_dims (decode : Decoder) (t : Thumbnailer) (d : Decoded) (out : Encoded)
    (hdec : decode t.img = some d) (hok : createBody decode t = Except.ok out) :
    out.width = (scaleDimensions t.maxSize d.width d.height).1 ∧
    out.height = (scaleDimensions t.maxSize d.width d.height).2 := by
  unfold createBody at hok
  rw [hdec] at hok
  dsimp only at hok
  by_cases h1 : t.outFormat = OutputFormat.OriginalFormat
  · rw [if_pos h1] at hok
    by_cases h2 : d.format = formatJPG
    · rw [if_pos h2] at hok
      dsimp only at hok
      have hinv := encode_ok_inv _ _ _ _ hok
      exact ⟨hinv.1, hinv.2.1⟩
    · rw [if_neg h2] at hok
      by_cases h3 : d.format = formatPNG
      · rw [if_pos h3] at hok
        dsimp only at hok
        have hinv := encode_ok_inv _ _ _ _ hok
        exact ⟨hinv.1, hinv.2.1⟩
      · rw [if_neg h3] at hok
        dsimp only at hok
        cases hok
  · rw [if_neg h1] at hok
    dsimp only at hok
    have hinv := encode_ok_inv _ _ _ _ hok
    exact ⟨hinv.1, hinv.2.1⟩

/-- Inverting a successful Create body for the encoding format. -/
theorem createBody_ok_format (decode : Decoder) (t : Thumbnailer) (d : Decoded) (out : Encoded)
    (hdec : decode t.img = some d) (hok : createBody decode t = Except.ok out) :
    (t.outFormat = OutputFormat.OriginalFormat →
      (d.format = formatJPG ∧ out.format = OutputFormat.JPG) ∨
      (d.format = formatPNG ∧ out.format = OutputFormat.PNG)) ∧
    (t.outFormat ≠ OutputFormat.OriginalFormat → out.format = t.outFormat) := by
  unfold createBody at hok
  rw [hdec] at hok
  dsimp only at hok
  by_cases h1 : t.outFormat = OutputFormat.OriginalFormat
  · rw [if_pos h1] at hok
    refine ⟨fun _ => ?_, fun hne => absurd h1 hne⟩
    by_cases h2 : d.format = formatJPG
    · rw [if_pos h2] at hok
      dsimp only at hok
      exact Or.inl ⟨h2, (encode_ok_inv _ _ _ _ hok).2.2⟩
    · rw [if_neg h2] at hok
      by_cases h3 : d.format = formatPNG
      · rw [if_pos h3] at hok
        dsimp only at hok
        exact Or.inr ⟨h3, (encode_ok_inv _ _ _ _ hok).2.2⟩
      · rw [if_neg h3] at hok
        dsimp only at hok
        cases hok
  · rw [if_neg h1] at hok
    dsimp only at hok
    refine ⟨fun heq => absurd heq h1, fun _ => ?_⟩
    exact (encode_ok_inv _ _ _ _ hok).2.2

/-- The Create body fails with the invalid image format error when the
requested format is Original and the detected format has no encoder. -/
theorem createBody_unsupported (decode : Decoder) (t : Thumbnailer) (d : Decoded)
    (hdec : decode t.img = some d) (h1 : t.outFormat = OutputFormat.OriginalFormat)
    (h2 : d.format ≠ formatJPG) (h3 : d.format ≠ formatPNG) :
    createBody decode t = Except.error (CreateError.invalidImageFormat d.format) := by
  unfold createBody
  rw [hdec]
  dsimp only
  rw [if_pos h1, if_neg h2, if_neg h3]

/-- C2: both components of scaleDimensions are bounded by maxSize on valid
inputs, and consequently a successful Create whose effective configuration
has maxSize at least 1 produces a thumbnail whose pixel dimensions are
both at most that maxSize. -/
theorem thumbnail_dimensions_bounded :
    (∀ m w h : ℤ, 1 ≤ m → 0 < w → 0 < h →
      (scaleDimensions m w h).1 ≤ m ∧ (scaleDimensions m w h).2 ≤ m) ∧
    (∀ (decode : Decoder) (hp : Heap) (t : Thumbnailer) (d : Decoded) (out : Encoded),
      decode (effective hp t).img = some d →
      1 ≤ (effective hp t).maxSize → 0 < d.width → 0 < d.height →
      Thumbnailer.Create decode hp t = Except.ok out →
      out.width ≤ (effective hp t).maxSize ∧ out.height ≤ (effective hp t).maxSize) := by
  constructor
  · exact fun m w h hm hw hh => scaleDimensions_le hm hw hh
  · intro decode hp t d out hdec hm hw hh hok
    rw [create_eq_body] at hok
    obtain ⟨hW, hH⟩ := createBody_ok_dims decode (effective hp t) d out hdec hok
    rw [hW, hH]
    exact scaleDimensions_le hm hw hh

/-- C2 witness: a 1000 by 500 PNG under the default bound 300 produces a
300 by 150 thumbnail, within the bound. -/
theorem thumbnail_dimensions_bounded_witness :
    Thumbnailer.Create (constDecoder formatPNG 1000 500) newBuilder.1 newBuilder.2 =
      Except.ok (Encoded.pngData 300 150) ∧
    (Encoded.pngData 300 150).width ≤ (effective newBuilder.1 newBuilder.2).maxSize ∧
    (Encoded.pngData 300 150).height ≤ (effective newBuilder.1 newBuilder.2).maxSize := by
  have heval : scaleDimensions 300 1000 500 = (300, 150) := by
    unfold scaleDimensions goRound
    norm_num [Int.floor_eq_iff]
  have hcreate : Thumbnailer.Create (constDecoder formatPNG 1000 500) newBuilder.1 newBuilder.2 =
      Except.ok (Encoded.pngData 300 150) := by
    have hview : view newBuilder.1 newBuilder.2.options = [] := by decide
    unfold Thumbnailer.Create createOnOptions
    rw [hview]
    unfold createBody constDecoder
    simp only [List.foldl_nil, newBuilder, New, heap0, formatJPG, formatPNG, DefaultMaxSize]
    simp +decide [heval, Thumbnailer.encode, Thumbnailer.encodePNG]
  exact ⟨hcreate,
    thumbnail_dimensions_bounded.2 (constDecoder formatPNG 1000 500) newBuilder.1 newBuilder.2
      ⟨formatPNG, 1000, 500⟩ (Encoded.pngData 300 150) rfl (by decide) (by norm_num)
      (by norm_num) hcreate⟩

/-- C5: an explicitly requested JPG or PNG is the format used for
encoding regardless of the detected source format; a requested Original
resolves to JPG on a detected jpeg, to PNG on a detected png, and on any
other detected format Create fails with the invalid image format error
and returns no bytes. -/
theorem create_resolves_format (decode : Decoder) (hp : Heap) (t : Thumbnailer) (d : Decoded)
    (hdec : decode (effective hp t).img = some d) :
    ((effective hp t).outFormat ≠ OutputFormat.OriginalFormat →
      ∀ out : Encoded, Thumbnailer.Create decode hp t = Except.ok out →
        out.format = (effective hp t).outFormat) ∧
    ((effective hp t).outFormat = OutputFormat.OriginalFormat → d.format = formatJPG →
      ∀ out : Encoded, Thumbnailer.Create decode hp t = Except.ok out →
        out.format = OutputFormat.JPG) ∧
    ((effective hp t).outFormat = OutputFormat.OriginalFormat → d.format = formatPNG →
      ∀ out : Encoded, Thumbnailer.Create decode hp t = Except.ok out →
        out.format = OutputFormat.PNG) ∧
    ((effective hp t).outFormat = OutputFormat.OriginalFormat → d.format ≠ formatJPG →
      d.format ≠ formatPNG →
      Thumbnailer.Create decode hp t = Except.error (CreateError.invalidImageFormat d.format)) := by
  refine ⟨?_, ?_, ?_, ?_⟩
  · intro hne out hok
    rw [create_eq_body] at hok
    exact (createBody_ok_format decode _ d out hdec hok).2 hne
  · intro heq hjpg out hok
    rw [create_eq_body] at hok
    rcases (createBody_ok_format decode _ d out hdec hok).1 heq with ⟨_, hf⟩ | ⟨hpng, _⟩
    · exact hf
    · exact absurd (hjpg.symm.trans hpng) (by decide)
  · intro heq hpng out hok
    rw [create_eq_body] at hok
    rcases (createBody_ok_format decode _ d out hdec hok).1 heq with ⟨hjpg, _⟩ | ⟨_, hf⟩
    · exact absurd (hjpg.symm.trans hpng) (by decide)
    · exact hf
  · intro heq h2 h3
    rw [create_eq_body]
    exact createBody_unsupported decode _ d hdec heq h2 h3

/-- C5 witness: a builder left on the Original format fails on a decoded
gif with the invalid image format error. -/
theorem create_resolves_format_witness :
    Thumbnailer.Create (constDecoder "gif" 10 10) newBuilder.1 newBuilder.2 =
      Except.error (CreateError.invalidImageFormat "gif") :=
  (create_resolves_format (constDecoder "gif" 10 10) newBuilder.1 newBuilder.2
    ⟨"gif", 10, 10⟩ rfl).2.2.2 (by decide) (by decide) (by decide)

/-- An encode whose configured format is not Original cannot hit the
unexpected output format branch. -/
theorem encode_ne_unexpected (t : Thumbnailer) (hne : t.outFormat ≠ OutputFormat.OriginalFormat)
    (w h : ℤ) :
    t.encode w h ≠ Except.error CreateError.unexpectedOutputFormat := by
  cases htf : t.outFormat with
  | OriginalFormat => exact absurd htf hne
  | JPG =>
    simp only [Thumbnailer.encode, htf, Thumbnailer.encodeJPG]
    split_ifs <;> simp
  | PNG =>
    simp only [Thumbnailer.encode, htf, Thumbnailer.encodePNG]
    split_ifs <;> simp

/-- C6: every Create call resolves the output format to JPG or PNG before
encoding, so the unexpected output format branch of encode is unreachable:
Create never returns that error. -/
theorem create_never_unexpected_format (decode : Decoder) (hp : Heap) (t : Thumbnailer) :
    Thumbnailer.Create decode hp t ≠ Except.error CreateError.unexpectedOutputFormat := by
  rw [create_eq_body]
  generalize effective hp t = u
  unfold createBody
  cases hdec : decode u.img with
  | none => simp
  | some d =>
    dsimp only
    by_cases h1 : u.outFormat = OutputFormat.OriginalFormat
    · rw [if_pos h1]
      by_cases h2 : d.format = formatJPG
      · rw [if_pos h2]
        dsimp only
        exact encode_ne_unexpected _ (by simp) _ _
      · rw [if_neg h2]
        by_cases h3 : d.format = formatPNG
        · rw [if_pos h3]
          dsimp only
          exact encode_ne_unexpected _ (by simp) _ _
        · rw [if_neg h3]
          dsimp only
          simp
    · rw [if_neg h1]
      dsimp only
      exact encode_ne_unexpected _ h1 _ _

/-- C7 counterexample: builder3's options slice has spare capacity, so the
appends of its two siblings share one storage slot.  The first sibling
sees MaxSize 100 as its last option right after its creation, but after
the second sibling is created from the same parent, the first sibling's
last option reads MaxSize 200 — the sibling guarantee fails on this
concrete input. -/
theorem with_sibling_corruption :
    view sibling1.1 sibling1.2.options =
      [MaxSize 10, MaxSize 20, MaxSize 30, MaxSize 100] ∧
    view sibling2.1 sibling1.2.options =
      [MaxSize 10, MaxSize 20, MaxSize 30, MaxSize 200] ∧
    (view sibling2.1 sibling1.2.options).getLast? = some (MaxSize 200) ∧
    MaxSize 200 ≠ MaxSize 100 := by
  decide

/-- C7 amended: With appends without observably changing the calling
builder's own view, and the returned builder sees the old options followed
by the new one; Create operates on a value copy of the builder (in this
embedding it is a pure function of heap and builder, so it cannot mutate
the caller).  The sibling guarantee, however, does not hold: a second
sibling append can overwrite the first sibling's last option when the
option lists share backing storage, as the counterexample shows. -/
theorem with_value_semantics (hp : Heap) (t : Thumbnailer) (o : OptionV)
    (hid : t.options.id < hp.arrays.length)
    (hlen : t.options.len ≤ (hp.get t.options.id).length) :
    view (Thumbnailer.With hp t o).1 ((Thumbnailer.With hp t o).2).options =
      view hp t.options ++ [o] ∧
    view (Thumbnailer.With hp t o).1 t.options = view hp t.options :=
  ⟨view_with_new hp t o hlen, view_with_self hp t o hid⟩

/-- C7 amended witness: the amended theorem on builder3 and MaxSize 100. -/
theorem with_value_semantics_witness :
    view (Thumbnailer.With builder3.1 builder3.2 (MaxSize 100)).1
        ((Thumbnailer.With builder3.1 builder3.2 (MaxSize 100)).2).options =
      view builder3.1 builder3.2.options ++ [MaxSize 100] ∧
    view (Thumbnailer.With builder3.1 builder3.2 (MaxSize 100)).1 builder3.2.options =
      view builder3.1 builder3.2.options :=
  with_value_semantics builder3.1 builder3.2 (MaxSize 100) (by decide) (by decide)

/-- C8: deferred options are applied to the working copy in order, exactly
once per Create call.  Sequentially reusing an unmodified template with
only the source option changed gives, for each call, exactly the pure
Create over the template configuration and the template options followed
by that call's source option — independent results with no cross-call
state leakage; and a later MaxSize option overrides an earlier one. -/
theorem create_template_reuse (decode : Decoder) (hp : Heap) (tmpl : Thumbnailer)
    (s1 s2 : List ℕ) (a b : ℤ)
    (hid : tmpl.options.id < hp.arrays.length)
    (hlen : tmpl.options.len ≤ (hp.get tmpl.options.id).length) :
    Thumbnailer.Create decode (Thumbnailer.With hp tmpl (Image s1)).1
        (Thumbnailer.With hp tmpl (Image s1)).2 =
      createOnOptions decode tmpl (view hp tmpl.options ++ [Image s1]) ∧
    Thumbnailer.Create decode
        (Thumbnailer.With (Thumbnailer.With hp tmpl (Image s1)).1 tmpl (Image s2)).1
        (Thumbnailer.With (Thumbnailer.With hp tmpl (Image s1)).1 tmpl (Image s2)).2 =
      createOnOptions decode tmpl (view hp tmpl.options ++ [Image s2]) ∧
    (effective
        (Thumbnailer.With (Thumbnailer.With hp tmpl (MaxSize a)).1
          (Thumbnailer.With hp tmpl (MaxSize a)).2 (MaxSize b)).1
        (Thumbnailer.With (Thumbnailer.With hp tmpl (MaxSize a)).1
          (Thumbnailer.With hp tmpl (MaxSize a)).2 (MaxSize b)).2).maxSize = b := by
  refine ⟨?_, ?_, ?_⟩
  · unfold Thumbnailer.Create
    rw [view_with_new hp tmpl (Image s1) hlen, with_eq]
    dsimp only
    exact createOnOptions_options decode tmpl _ _
  · have hid2 : tmpl.options.id < (Thumbnailer.With hp tmpl (Image s1)).1.arrays.length := by
      rw [with_eq]
      exact lt_of_lt_of_le hid (arrays_length_le_goAppend hp tmpl.options (Image s1))
    have hlen2 : tmpl.options.len ≤
        ((Thumbnailer.With hp tmpl (Image s1)).1.get tmpl.options.id).length := by
      rw [with_eq]
      dsimp only
      rw [length_get_goAppend hp tmpl.options (Image s1) tmpl.options.id hid]
      exact hlen
    unfold Thumbnailer.Create
    rw [view_with_new _ tmpl (Image s2) hlen2, view_with_self hp tmpl (Image s1) hid,
      with_eq _ tmpl (Image s2)]
    dsimp only
    exact createOnOptions_options decode tmpl _ _
  · have hwf := wf_goAppend_new hp tmpl.options (MaxSize a) hlen
    have hv1 : view (Thumbnailer.With hp tmpl (MaxSize a)).1
        ((Thumbnailer.With hp tmpl (MaxSize a)).2).options =
        view hp tmpl.options ++ [MaxSize a] := view_with_new hp tmpl (MaxSize a) hlen
    have hv2 : view
        (Thumbnailer.With (Thumbnailer.With hp tmpl (MaxSize a)).1
          (Thumbnailer.With hp tmpl (MaxSize a)).2 (MaxSize b)).1
        ((Thumbnailer.With (Thumbnailer.With hp tmpl (MaxSize a)).1
          (Thumbnailer.With hp tmpl (MaxSize a)).2 (MaxSize b)).2).options =
        view (Thumbnailer.With hp tmpl (MaxSize a)).1
          ((Thumbnailer.With hp tmpl (MaxSize a)).2).options ++ [MaxSize b] :=
      view_with_new _ _ (MaxSize b) hwf.2
    unfold effective
    rw [hv2, hv1, List.foldl_append]
    simp [applyOption, MaxSize]

/-- C8 witness: the theorem on the empty template builder, two distinct
byte sources, and the bounds 80 then 120. -/
theorem create_template_reuse_witness :
    Thumbnailer.Create (constDecoder formatPNG 40 40)
        (Thumbnailer.With newBuilder.1 newBuilder.2 (Image [1])).1
        (Thumbnailer.With newBuilder.1 newBuilder.2 (Image [1])).2 =
      createOnOptions (constDecoder formatPNG 40 40) newBuilder.2
        (view newBuilder.1 newBuilder.2.options ++ [Image [1]]) ∧
    Thumbnailer.Create (constDecoder formatPNG 40 40)
        (Thumbnailer.With (Thumbnailer.With newBuilder.1 newBuilder.2 (Image [1])).1
          newBuilder.2 (Image [2])).1
        (Thumbnailer.With (Thumbnailer.With newBuilder.1 newBuilder.2 (Image [1])).1
          newBuilder.2 (Image [2])).2 =
      createOnOptions (constDecoder formatPNG 40 40) newBuilder.2
        (view newBuilder.1 newBuilder.2.options ++ [Image [2]]) ∧
    (effective
        (Thumbnailer.With (Thumbnailer.With newBuilder.1 newBuilder.2 (MaxSize 80)).1
          (Thumbnailer.With newBuilder.1 newBuilder.2 (MaxSize 80)).2 (MaxSize 120)).1
        (Thumbnailer.With (Thumbnailer.With newBuilder.1 newBuilder.2 (MaxSize 80)).1
          (Thumbnailer.With newBuilder.1 newBuilder.2 (MaxSize 80)).2 (MaxSize 120)).2).maxSize =
      120 :=
  create_template_reuse (constDecoder formatPNG 40 40) newBuilder.1 newBuilder.2
    [1] [2] 80 120 (by decide) (by decide)

/-- C9: a numeric OutputFormat value above PNG is clamped to
OriginalFormat when the OutFormat option is constructed, so a builder
configured with it behaves identically in Create to one configured with
OutFormat of OriginalFormat. -/
theorem outFormat_clamps_out_of_range (v : ℕ) (_hv : v < 256) (h2 : 2 < v) :
    OutFormat v = OutFormat OutputFormat.OriginalFormat.toNat ∧
    ∀ (decode : Decoder) (hp : Heap) (t : Thumbnailer),
      Thumbnailer.Create decode (Thumbnailer.With hp t (OutFormat v)).1
          (Thumbnailer.With hp t (OutFormat v)).2 =
        Thumbnailer.Create decode
          (Thumbnailer.With hp t (OutFormat OutputFormat.OriginalFormat.toNat)).1
          (Thumbnailer.With hp t (OutFormat OutputFormat.OriginalFormat.toNat)).2 := by
  have heq : OutFormat v = OutFormat OutputFormat.OriginalFormat.toNat := by
    unfold OutFormat
    rw [if_pos h2]
    norm_num [OutputFormat.toNat, OutputFormat.fromNat]
  exact ⟨heq, fun decode hp t => by rw [heq]⟩

/-- C9 witness: the theorem at the out-of-range value 5 on the empty
builder over a decoded PNG. -/
theorem outFormat_clamps_witness :
    OutFormat 5 = OutFormat OutputFormat.OriginalFormat.toNat ∧
    Thumbnailer.Create (constDecoder formatPNG 8 8)
        (Thumbnailer.With newBuilder.1 newBuilder.2 (OutFormat 5)).1
        (Thumbnailer.With newBuilder.1 newBuilder.2 (OutFormat 5)).2 =
      Thumbnailer.Create (constDecoder formatPNG 8 8)
        (Thumbnailer.With newBuilder.1 newBuilder.2
          (OutFormat OutputFormat.OriginalFormat.toNat)).1
        (Thumbnailer.With newBuilder.1 newBuilder.2
          (OutFormat OutputFormat.OriginalFormat.toNat)).2 :=
  ⟨(outFormat_clamps_out_of_range 5 (by norm_num) (by norm_num)).1,
    (outFormat_clamps_out_of_range 5 (by norm_num) (by norm_num)).2
      (constDecoder formatPNG 8 8) newBuilder.1 newBuilder.2⟩
